import Mathlib

/-!
Verification of the joke-submission-pipeline core against its specification.

Shallow embedding of:
* `ollama_server_pool.py` — `ServerLock` (advisory-file-lock primitive) and the
  slot-acquisition / retry-with-jitter logic of `OllamaServerPool`;
* `file_utils.py` — `parse_joke_file`, `write_joke_file`, `atomic_move`;
* `stage_processor.py` — the claim / retry / relocate state machine of
  `StageProcessor._process_with_retry` and the stop-flag directory loop.
-/

set_option autoImplicit false

namespace JokePipeline

/-! ## Lock primitive model (`ollama_server_pool.py`, class `ServerLock`)

A slot's lock file is modelled by `SlotFile`:
* `fpresent` — the file exists on disk;
* `content` — the parsed JSON metadata record stored in it, `none` when the
  file is empty or does not parse as JSON;
* `flockHolder` — the owner token of the open file description currently
  holding the exclusive `fcntl.flock`, if any.  `flock` locks conflict across
  distinct open file descriptions even inside one process, so any second
  non-blocking `LOCK_EX` fails while `flockHolder` is set.
-/

/-- Metadata record written into a lock file (acquire, lines 70-75):
pid, timestamp, stage, server_url.  `pid` is `Option` because `is_stale`
reads it back with `metadata.get('pid')`, which may be absent. -/
structure LockMeta where
  pid : Option Nat
  timestamp : Nat
  stage : String
  server_url : String
deriving Repr, DecidableEq

/-- State of one slot's lock file. -/
structure SlotFile where
  fpresent : Bool
  content : Option LockMeta
  flockHolder : Option Nat
deriving Repr, DecidableEq

namespace ServerLock

/-- Model of `ServerLock.acquire` (lines 55-90).  `open(path, 'w')` creates
the file and truncates any existing content (advisory locks do not prevent
this); then `flock(LOCK_EX | LOCK_NB)` fails iff some open file description
already holds the lock, in which case the file is closed and `False`
returned; otherwise the metadata record is written and `True` returned. -/
def acquire (caller : Nat) (ts : Nat) (stage url : String) (st : SlotFile) :
    Bool × SlotFile :=
  let opened : SlotFile := { fpresent := true, content := none, flockHolder := st.flockHolder }
  if opened.flockHolder.isSome then
    (false, opened)
  else
    (true, { fpresent := true,
             content := some { pid := some caller, timestamp := ts, stage := stage, server_url := url },
             flockHolder := some caller })

/-- Model of `ServerLock.release` (lines 92-113): when this instance holds the
lock (`self.acquired`), unlock, close and remove the lock file; otherwise do
nothing. -/
def release (selfAcquired : Bool) (st : SlotFile) : SlotFile :=
  if selfAcquired then { fpresent := false, content := none, flockHolder := none }
  else st

/-- Model of `ServerLock.is_stale` (lines 124-162), with process liveness as
the oracle `alive` (`os.kill(pid, 0)` succeeds iff `alive pid`).
* missing file → `IOError` caught → `false`;
* exclusively flocked file → shared `LOCK_SH | LOCK_NB` fails → caught → `false`;
* empty / non-JSON content → `json.JSONDecodeError` caught → `false`;
* JSON without a `pid` field → `true`;
* otherwise stale iff the recorded pid is not alive. -/
def is_stale (alive : Nat → Bool) (st : SlotFile) : Bool :=
  if !st.fpresent then false
  else if st.flockHolder.isSome then false
  else
    match st.content with
    | none => false
    | some m =>
      match m.pid with
      | none => true
      | some p => !(alive p)

end ServerLock

/-- Model of the single-slot body of `OllamaServerPool._try_acquire_server`
(lines 276-291): if the lock file exists and `is_stale`, remove it; then
attempt `ServerLock.acquire`. -/
def tryAcquireSlot (alive : Nat → Bool) (caller : Nat) (ts : Nat)
    (stage url : String) (st : SlotFile) : Bool × SlotFile :=
  let st1 :=
    if st.fpresent && ServerLock.is_stale alive st then
      { fpresent := false, content := none, flockHolder := none }
    else st
  ServerLock.acquire caller ts stage url st1

/-! ## Claims C1, C6, C7 -/

/-- C1 (counterexample): a contended `acquire` does return `false` and does
not delete the lock file, but it does NOT leave the stored ownership
metadata intact: `open(path, 'w')` truncates the file, erasing the record. -/
theorem C1_counterexample :
    let meta : LockMeta := { pid := some 41, timestamp := 3, stage := "categorize", server_url := "http://a" }
    let held : SlotFile := { fpresent := true, content := some meta, flockHolder := some 41 }
    let r := ServerLock.acquire 42 9 "formatted" "http://a" held
    r.1 = false ∧ r.2.fpresent = true ∧ r.2.content ≠ some meta := by
  decide

/-- C1 (amended): when the exclusive advisory lock is held by another open
file description, `acquire` returns `false` without blocking and without
deleting the lock file, but the open-for-write performed before locking
truncates the file, so the stored ownership metadata record is erased
(content left empty) rather than intact. -/
theorem C1_contended_acquire (caller ts : Nat) (stage url : String) (st : SlotFile)
    (hheld : st.flockHolder.isSome = true) :
    (ServerLock.acquire caller ts stage url st).1 = false ∧
    (ServerLock.acquire caller ts stage url st).2.fpresent = true ∧
    (ServerLock.acquire caller ts stage url st).2.content = none := by
  simp [ServerLock.acquire, hheld]

/-- C1 witness: the amended theorem applied at a concrete held slot. -/
theorem C1_contended_acquire_witness :
    (ServerLock.acquire 2 7 "s" "u" ⟨true, none, some 1⟩).1 = false ∧
    (ServerLock.acquire 2 7 "s" "u" ⟨true, none, some 1⟩).2.fpresent = true ∧
    (ServerLock.acquire 2 7 "s" "u" ⟨true, none, some 1⟩).2.content = none :=
  C1_contended_acquire 2 7 "s" "u" ⟨true, none, some 1⟩ (by decide)

/-- C6: single endpoint, `max_concurrent = 1`, one slot file.  While some
owner holds the slot's exclusive lock, any other `acquire` through the
pool's slot path (stale-check then lock) returns `false`; and on the state
produced by the holder's `release`, the next `acquire` succeeds. -/
theorem C6_mutual_exclusion (alive : Nat → Bool) (b c ts ts2 : Nat)
    (stg stg2 url : String) (st : SlotFile)
    (hheld : st.flockHolder.isSome = true) :
    (tryAcquireSlot alive b ts stg url st).1 = false ∧
    (tryAcquireSlot alive c ts2 stg2 url (ServerLock.release true st)).1 = true := by
  constructor
  · simp [tryAcquireSlot, ServerLock.is_stale, ServerLock.acquire, hheld]
  · simp [tryAcquireSlot, ServerLock.release, ServerLock.is_stale, ServerLock.acquire]

/-- C6 witness: mutual exclusion at a concrete held slot state. -/
theorem C6_mutual_exclusion_witness :
    (tryAcquireSlot (fun _ => true) 2 5 "a" "u" ⟨true, none, some 1⟩).1 = false ∧
    (tryAcquireSlot (fun _ => true) 3 6 "b" "u"
      (ServerLock.release true ⟨true, none, some 1⟩)).1 = true :=
  C6_mutual_exclusion (fun _ => true) 2 3 5 6 "a" "b" "u" ⟨true, none, some 1⟩ (by decide)

/-- C7: `is_stale` returns `true` when the readable, unlocked lock file
records an owner pid that is no longer alive; it returns `false` whenever
the file is missing, exclusively locked, or unreadable as a metadata
record, and it never returns `true` for a lock whose recorded owner process
is still running. -/
theorem C7_is_stale (alive : Nat → Bool) (st : SlotFile) :
    (∀ m p, st.fpresent = true → st.flockHolder = none → st.content = some m →
      m.pid = some p → alive p = false → ServerLock.is_stale alive st = true) ∧
    (st.fpresent = false → ServerLock.is_stale alive st = false) ∧
    (st.flockHolder.isSome = true → ServerLock.is_stale alive st = false) ∧
    (st.fpresent = true → st.flockHolder = none → st.content = none →
      ServerLock.is_stale alive st = false) ∧
    (∀ m p, st.content = some m → m.pid = some p → alive p = true →
      ServerLock.is_stale alive st = false) := by
  refine ⟨?_, ?_, ?_, ?_, ?_⟩
  · intro m p hf hl hc hp hdead
    simp [ServerLock.is_stale, hf, hl, hc, hp, hdead]
  · intro hf
    simp [ServerLock.is_stale, hf]
  · intro hl
    simp [ServerLock.is_stale, hl]
  · intro hf hl hc
    simp [ServerLock.is_stale, hf, hl, hc]
  · intro m p hc hp halive
    by_cases hf : st.fpresent
    · by_cases hl : st.flockHolder.isSome
      · simp [ServerLock.is_stale, hf, hl]
      · have hl2 : st.flockHolder = none := Option.not_isSome_iff_eq_none.mp hl
        simp [ServerLock.is_stale, hf, hl2, hc, hp, halive]
    · simp [ServerLock.is_stale, hf]

/-- C7 witness: staleness detected for a dead owner at a concrete state. -/
theorem C7_is_stale_witness :
    ServerLock.is_stale (fun _ => false)
      ⟨true, some ⟨some 41, 0, "s", "u"⟩, none⟩ = true :=
  (C7_is_stale (fun _ => false) ⟨true, some ⟨some 41, 0, "s", "u"⟩, none⟩).1
    ⟨some 41, 0, "s", "u"⟩ 41 rfl rfl rfl rfl rfl

/-! ## Atomic move model (`file_utils.py`, `atomic_move`, lines 140-179)

`atomic_move(source_path, dest_dir)` performs, in order:
`shutil.copy2` of the source into `dest_dir/tmp/<name>`, `os.rename` of
`dest_dir/tmp/<name>` to `dest_dir/<name>`, and `os.remove(source_path)`
only after the rename.  The filesystem is abstracted to which complete
copies of the item exist. -/

/-- Which complete copies of the item exist: at the source path, at
`dest_dir/tmp/<name>`, and at `dest_dir/<name>`. -/
structure MoveFs where
  src : Bool
  tmpCopy : Bool
  dst : Bool
deriving Repr, DecidableEq

/-- The three filesystem operations of `atomic_move`. -/
inductive MoveOp where
  | copyToTmp
  | renameTmpToDest
  | removeSource
deriving Repr, DecidableEq

/-- Effect of each operation on the abstract filesystem. -/
def applyMoveOp (s : MoveFs) : MoveOp → MoveFs
  | .copyToTmp => { s with tmpCopy := true }
  | .renameTmpToDest => { s with tmpCopy := false, dst := true }
  | .removeSource => { s with src := false }

/-- The operation sequence of `atomic_move` (lines 170, 174, 177): copy to
`dest_dir/tmp`, rename into `dest_dir`, delete the source last. -/
def atomic_move_ops : List MoveOp :=
  [.copyToTmp, .renameTmpToDest, .removeSource]

/-- All intermediate filesystem states of a step sequence, including the
initial and final states. -/
def moveTrace (s : MoveFs) : List MoveOp → List MoveFs
  | [] => [s]
  | op :: ops => s :: moveTrace (applyMoveOp s op) ops

/-- C5: `atomic_move` copies the source into `destDir/tmp/<name>`, renames it
into `destDir/<name>`, and deletes the source only after the rename; at
every point of the step sequence, started from a state where the source
exists, at least one complete copy (source or destination) exists. -/
theorem C5_atomic_move_never_zero_copies :
    atomic_move_ops = [.copyToTmp, .renameTmpToDest, .removeSource] ∧
    moveTrace ⟨true, false, false⟩ atomic_move_ops =
      [⟨true, false, false⟩, ⟨true, true, false⟩, ⟨true, false, true⟩, ⟨false, false, true⟩] ∧
    ∀ s ∈ moveTrace ⟨true, false, false⟩ atomic_move_ops, s.src = true ∨ s.dst = true := by
  decide

/-! ## Stop-flag model (`stage_processor.py`, `_process_files_in_directory`,
lines 81-113)

The directory loop first collects and sorts the eligible files, then for
each one checks `os.path.exists(self.config.ALL_STOP)` and returns
immediately when the flag is present; otherwise it hands the file to
`_process_with_retry`.  The flag can appear at any time, so its presence at
the check before the `i`-th file is an oracle `stop i`.  The code contains
no call that removes `ALL_STOP`, which the model records in
`stopFlagRemoved` (set by no step). -/

/-- Result of running the directory loop: the files handed to
`_process_with_retry`, the files never touched (still in the input
directory when the loop exited), and whether the engine removed the
stop-flag file (never). -/
structure DirRunResult where
  processed : List String
  untouched : List String
  stopFlagRemoved : Bool
deriving Repr, DecidableEq

/-- Model of the `for _, filepath in file_entries` loop (lines 107-113) over
the sorted file list, with `i` the index of the next file: if the stop flag
is present at the check, return at once leaving the remaining files alone;
otherwise process the file and continue. -/
def processFilesLoop (stop : Nat → Bool) : List String → Nat → DirRunResult
  | [], _ => ⟨[], [], false⟩
  | f :: fs, i =>
    if stop i then ⟨[], f :: fs, false⟩
    else
      let r := processFilesLoop stop fs (i + 1)
      ⟨f :: r.processed, r.untouched, r.stopFlagRemoved⟩

/-- Directory run entry point: loop from the first file. -/
def processFilesInDirectory (stop : Nat → Bool) (files : List String) : DirRunResult :=
  processFilesLoop stop files 0

theorem processFilesLoop_stop_at (stop : Nat → Bool) (files : List String)
    (i k : Nat) (hbefore : ∀ j, j < k → stop (i + j) = false) (hk : stop (i + k) = true) :
    processFilesLoop stop files i =
      ⟨files.take k, files.drop k, false⟩ := by
  induction files generalizing i k with
  | nil => simp [processFilesLoop]
  | cons f fs ih =>
    cases k with
    | zero =>
      have h0 : stop i = true := by simpa using hk
      simp [processFilesLoop, h0]
    | succ k' =>
      have h0 : stop i = false := by simpa using hbefore 0 (Nat.succ_pos k')
      have hk2 : stop (i + 1 + k') = true := by
        have : i + 1 + k' = i + (k' + 1) := by omega
        rw [this]; exact hk
      have hb2 : ∀ j, j < k' → stop (i + 1 + j) = false := by
        intro j hj
        have : i + 1 + j = i + (j + 1) := by omega
        rw [this]
        exact hbefore (j + 1) (by omega)
      simp [processFilesLoop, h0, ih (i + 1) k' hb2 hk2]

/-- C8: if the stop flag is (first) present at the check before the `k`-th
file, the engine stops that directory immediately: exactly the first `k`
files were processed, every remaining file is untouched (still queued in
the input directory), and the engine never removed the stop-flag file. -/
theorem C8_stop_flag (stop : Nat → Bool) (files : List String) (k : Nat)
    (hbefore : ∀ j, j < k → stop j = false) (hk : stop k = true) :
    processFilesInDirectory stop files =
      ⟨files.take k, files.drop k, false⟩ := by
  have := processFilesLoop_stop_at stop files 0 k
    (by intro j hj; simpa using hbefore j hj) (by simpa using hk)
  simpa [processFilesInDirectory] using this

/-- C8 witness: five queued files with the flag appearing at the check
before the second file — one processed, four untouched, flag intact. -/
theorem C8_stop_flag_witness :
    processFilesInDirectory (fun i => decide (1 ≤ i)) ["a", "b", "c", "d", "e"] =
      ⟨["a"], ["b", "c", "d", "e"], false⟩ :=
  C8_stop_flag (fun i => decide (1 ≤ i)) ["a", "b", "c", "d", "e"] 1
    (by decide) (by decide)

/-! ## Retry-with-jitter model (`ollama_server_pool.py`, `acquire_server`,
lines 334-366)

The acquisition loop runs `attempt` from `0` to `retry_max_attempts - 1`.
A pass over the shuffled servers either acquires a slot (early return) or,
when `attempt < retry_max_attempts - 1`, sleeps
`retry_wait + random.uniform(0, retry_jitter)` before the next pass.
Whether the pass succeeds is the oracle `succeeds attempt`; the value drawn
by `random.uniform(0, retry_jitter)` is the oracle `sample attempt`
(`random.uniform(a, b)` returns a number in `[a, b]`). -/

/-- The sequence of sleep durations performed by the acquisition loop, with
`attempt` the current attempt index and `remaining` the number of loop
iterations left (`retry_max_attempts - attempt`). -/
def acquireWaitsLoop (succeeds : Nat → Bool) (sample : Nat → ℚ)
    (retry_wait : ℚ) (maxAttempts : Nat) : Nat → Nat → List ℚ
  | _, 0 => []
  | attempt, r + 1 =>
    if succeeds attempt then []
    else
      let rest := acquireWaitsLoop succeeds sample retry_wait maxAttempts (attempt + 1) r
      if attempt < maxAttempts - 1 then (retry_wait + sample attempt) :: rest
      else rest

/-- All sleeps performed by one `acquire_server` call. -/
def acquireWaits (succeeds : Nat → Bool) (sample : Nat → ℚ)
    (retry_wait : ℚ) (maxAttempts : Nat) : List ℚ :=
  acquireWaitsLoop succeeds sample retry_wait maxAttempts 0 maxAttempts

theorem acquireWaitsLoop_bounds (succeeds : Nat → Bool) (sample : Nat → ℚ)
    (rw rj : ℚ) (maxAttempts : Nat)
    (hlo : ∀ i, 0 ≤ sample i) (hhi : ∀ i, sample i ≤ rj) :
    ∀ r attempt, (∀ w ∈ acquireWaitsLoop succeeds sample rw maxAttempts attempt r,
        rw ≤ w ∧ w ≤ rw + rj) ∧
      (acquireWaitsLoop succeeds sample rw maxAttempts attempt r).length ≤
        maxAttempts - 1 - attempt := by
  intro r
  induction r with
  | zero => intro attempt; simp [acquireWaitsLoop]
  | succ r ih =>
    intro attempt
    by_cases hs : succeeds attempt
    · simp [acquireWaitsLoop, hs]
    · by_cases hlt : attempt < maxAttempts - 1
      · refine ⟨?_, ?_⟩
        · intro w hw
          simp only [acquireWaitsLoop, hs, hlt, if_false, if_true, Bool.false_eq_true,
            List.mem_cons] at hw
          rcases hw with h | h
          · subst h
            constructor
            · have := hlo attempt; linarith
            · have := hhi attempt; linarith
          · exact (ih (attempt + 1)).1 w h
        · have := (ih (attempt + 1)).2
          simp only [acquireWaitsLoop, hs, hlt, if_false, if_true, Bool.false_eq_true,
            List.length_cons]
          omega
      · refine ⟨?_, ?_⟩
        · intro w hw
          simp only [acquireWaitsLoop, hs, hlt, if_false, Bool.false_eq_true] at hw
          exact (ih (attempt + 1)).1 w hw
        · have := (ih (attempt + 1)).2
          simp only [acquireWaitsLoop, hs, hlt, if_false, Bool.false_eq_true]
          omega

/-- C9: every sleep performed between acquisition passes equals
`retry_wait` plus the uniform sample drawn for that pass, so (the samples
lying in `[0, retry_jitter]`) every inter-attempt wait lies in
`[retry_wait, retry_wait + retry_jitter]`; and at most
`maxAttempts - 1` sleeps are performed, i.e. never after the final pass. -/
theorem C9_jitter_bound (succeeds : Nat → Bool) (sample : Nat → ℚ)
    (rw rj : ℚ) (maxAttempts : Nat)
    (hlo : ∀ i, 0 ≤ sample i) (hhi : ∀ i, sample i ≤ rj) :
    (∀ w ∈ acquireWaits succeeds sample rw maxAttempts, rw ≤ w ∧ w ≤ rw + rj) ∧
    (acquireWaits succeeds sample rw maxAttempts).length ≤ maxAttempts - 1 := by
  have h := acquireWaitsLoop_bounds succeeds sample rw rj maxAttempts hlo hhi maxAttempts 0
  exact ⟨h.1, by simpa using h.2⟩

/-- C9 witness: two passes that both fail with a concrete sample draw of
`1/2` against `retry_wait = 1`, `retry_jitter = 1`: the single recorded
wait `3/2` lies in `[1, 2]` and only one wait is performed. -/
theorem C9_jitter_bound_witness :
    ((1 : ℚ) ≤ 3/2 ∧ (3/2 : ℚ) ≤ 1 + 1) ∧
    (acquireWaits (fun _ => false) (fun _ => 1/2) 1 2).length ≤ 1 := by
  have h := C9_jitter_bound (fun _ => false) (fun _ => 1/2) 1 1 2
    (fun _ => by norm_num) (fun _ => by norm_num)
  refine ⟨h.1 (3/2) ?_, h.2⟩
  have : acquireWaits (fun _ => false) (fun _ => (1 : ℚ)/2) 1 2 = [3/2] := by
    norm_num [acquireWaits, acquireWaitsLoop]
  rw [this]
  simp

/-! ## Stage processor retry loop (`stage_processor.py`,
`_process_with_retry` lines 159-210, `_move_to_output` lines 212-239,
`_move_to_reject` lines 241-275, `_log_rejection` lines 277-310)

The claimed file and the external world are abstracted into oracles:
* `parse i` — result of the `i`-th `parse_joke_file` call (value or the
  text of the raised exception);
* `callback i` — result of the `i`-th `self.process_file` invocation;
* `moveOut i` / `moveRej i` — whether the `i`-th
  `atomic_write`+`atomic_move` pair of `_move_to_output` /
  `_move_to_reject` succeeds (`none`) or raises (`some errText`).

Headers are an insertion-ordered string map, as a Python dict of strings. -/

abbrev Headers := List (String × String)

/-- Python `d[k] = v` on an insertion-ordered dict: overwrite in place when
the key is present, append otherwise. -/
def dictSet (d : Headers) (k v : String) : Headers :=
  if d.any (fun p => p.1 == k) then
    d.map (fun p => if p.1 == k then (k, v) else p)
  else d ++ [(k, v)]

/-- Python `d.get(k, dflt)`. -/
def dictGetD (d : Headers) (k dflt : String) : String :=
  match d.find? (fun p => p.1 == k) with
  | some p => p.2
  | none => dflt

theorem find?_map_overwrite (d : Headers) (k v : String)
    (h : d.any (fun p => p.1 == k) = true) :
    (d.map (fun p => if p.1 == k then (k, v) else p)).find? (fun p => p.1 == k) =
      some (k, v) := by
  induction d with
  | nil => simp at h
  | cons p t ih =>
    by_cases hp : p.1 == k
    · simp [List.find?, hp]
    · have hp2 : (p.1 == k) = false := by simpa using hp
      simp only [List.any_cons, hp2, Bool.false_or] at h
      simp only [List.map_cons, hp2, if_false, Bool.false_eq_true, List.find?, ih h]

theorem find?_append_fresh (d : Headers) (k v : String)
    (h : d.any (fun p => p.1 == k) = false) :
    ((d ++ [(k, v)]).find? (fun p => p.1 == k)) = some (k, v) := by
  induction d with
  | nil => simp [List.find?]
  | cons p t ih =>
    simp only [List.any_cons, Bool.or_eq_false_iff] at h
    simp only [List.cons_append, List.find?, h.1]
    simpa using ih h.2

theorem dictGetD_dictSet (d : Headers) (k v dflt : String) :
    dictGetD (dictSet d k v) k dflt = v := by
  by_cases h : d.any (fun p => p.1 == k) = true
  · have h1 : dictSet d k v = d.map (fun p => if p.1 == k then (k, v) else p) := by
      unfold dictSet
      rw [if_pos h]
    rw [h1]
    unfold dictGetD
    rw [find?_map_overwrite d k v h]
  · have h1 : dictSet d k v = d ++ [(k, v)] := by
      unfold dictSet
      rw [if_neg h]
    rw [h1]
    unfold dictGetD
    rw [find?_append_fresh d k v (Bool.eq_false_iff.mpr h)]

/-- Result quadruple of `process_file` (the stage callback contract). -/
structure CallbackResult where
  success : Bool
  headers : Headers
  content : String
  rejectReason : String
deriving Repr, DecidableEq

/-- The oracles a processing cycle consumes, each indexed by how many calls
of that kind happened before. -/
structure LoopOracles where
  parse : Nat → Except String (Headers × String)
  callback : Nat → Except String CallbackResult
  moveOut : Nat → Option String
  moveRej : Nat → Option String

/-- Terminal result of `_process_with_retry` for one claimed item. -/
inductive Outcome where
  /-- `_move_to_output` completed: file written with these headers/content
  and moved to the next stage directory. -/
  | relocatedSuccess (headers : Headers) (content : String)
  /-- `_move_to_reject` completed: file written with these headers/content,
  moved to the reject directory, and one audit-log line appended. -/
  | relocatedReject (headers : Headers) (content : String) (reason : String) (auditLine : String)
  /-- An exception escaped `_process_with_retry`; the item stays where the
  claim left it (the input `tmp/` directory). -/
  | crashed (err : String)
deriving Repr, DecidableEq

/-- Call counters for the oracles plus the number of retry-loop iterations
(`while retries <= max_retries` body entries). -/
structure LoopCounters where
  attempts : Nat
  parseCalls : Nat
  invocations : Nat
  moveOutCalls : Nat
  moveRejCalls : Nat
deriving Repr, DecidableEq

/-- Headers as mutated by `_move_to_reject` (lines 252-255): set
`Pipeline-Stage` to the reject stage and `Rejection-Reason` to the failure
text. -/
def rejectHeaders (rejectStage : String) (h : Headers) (reason : String) : Headers :=
  dictSet (dictSet h "Pipeline-Stage" rejectStage) "Rejection-Reason" reason

/-- The audit-log line of `_log_rejection` (lines 300-307): the item's
`Joke-ID` (default `unknown`), a space, and the reason with newlines
replaced by spaces. -/
def auditLine (h2 : Headers) (reason : String) : String :=
  dictGetD h2 "Joke-ID" "unknown" ++ " " ++ (reason.replace "\n" " ").replace "\r" " "

/-- Three-way result of one iteration of the `while` body (lines 163-202
inside `try`): a terminal return, an exception reaching the `except`
handler, or a business failure with retries remaining. -/
inductive AttemptStep where
  | done (out : Outcome) (c : LoopCounters)
  | exn (err : String) (c : LoopCounters)
  | retryBiz (c : LoopCounters)

/-- One iteration of the retry loop body: parse the claimed file, invoke the
callback; on success run `_move_to_output` (lines 171-174); on business
failure either leave a retry to the caller or, on the last attempt, run
`_move_to_reject` with the callback's reason (line 182).  Any raise inside
the body surfaces as `.exn`. -/
def attemptOnce (isLast : Bool) (outputStage rejectStage : String)
    (o : LoopOracles) (c0 : LoopCounters) : AttemptStep :=
  let c := { c0 with attempts := c0.attempts + 1 }
  match o.parse c.parseCalls with
  | .error e => .exn e { c with parseCalls := c.parseCalls + 1 }
  | .ok (h, content) =>
    let c1 := { c with parseCalls := c.parseCalls + 1 }
    match o.callback c1.invocations with
    | .error e => .exn e { c1 with invocations := c1.invocations + 1 }
    | .ok cb =>
      let c2 := { c1 with invocations := c1.invocations + 1 }
      if cb.success then
        match o.moveOut c2.moveOutCalls with
        | none =>
          .done (.relocatedSuccess (dictSet cb.headers "Pipeline-Stage" outputStage) cb.content)
            { c2 with moveOutCalls := c2.moveOutCalls + 1 }
        | some e => .exn e { c2 with moveOutCalls := c2.moveOutCalls + 1 }
      else
        if isLast then
          let h2 := rejectHeaders rejectStage h cb.rejectReason
          match o.moveRej c2.moveRejCalls with
          | none =>
            .done (.relocatedReject h2 content cb.rejectReason (auditLine h2 cb.rejectReason))
              { c2 with moveRejCalls := c2.moveRejCalls + 1 }
          | some e => .exn e { c2 with moveRejCalls := c2.moveRejCalls + 1 }
        else .retryBiz c2

/-- The final arm of the `except` handler (lines 193-201): re-parse the file
(placeholders on failure), then `_move_to_reject` with reason
`Exception occurred: <err>`; a raise from that relocation escapes the
method. -/
def finalExceptionReject (rejectStage : String) (o : LoopOracles)
    (e : String) (c : LoopCounters) : Outcome × LoopCounters :=
  let pr := o.parse c.parseCalls
  let c1 := { c with parseCalls := c.parseCalls + 1 }
  let hc := match pr with
    | .ok x => x
    | .error _ => (([] : Headers), "")
  let reason := "Exception occurred: " ++ e
  let h2 := rejectHeaders rejectStage hc.1 reason
  match o.moveRej c1.moveRejCalls with
  | none =>
    (.relocatedReject h2 hc.2 reason (auditLine h2 reason),
      { c1 with moveRejCalls := c1.moveRejCalls + 1 })
  | some e2 => (.crashed e2, { c1 with moveRejCalls := c1.moveRejCalls + 1 })

/-- The `while retries <= max_retries` loop (lines 162-202).  `fuel` is a
structural bound on the iterations; it is started at `maxRetries + 1` and
never reached, because the loop recurses only while `retries < maxRetries`. -/
def runRetryLoop (maxRetries : Nat) (outputStage rejectStage : String) (o : LoopOracles) :
    Nat → Nat → LoopCounters → Outcome × LoopCounters
  | 0, _, c => (.crashed "", c)
  | fuel + 1, retries, c =>
    match attemptOnce (decide (maxRetries ≤ retries)) outputStage rejectStage o c with
    | .done out c1 => (out, c1)
    | .retryBiz c1 => runRetryLoop maxRetries outputStage rejectStage o fuel (retries + 1) c1
    | .exn e c1 =>
      if retries < maxRetries then
        runRetryLoop maxRetries outputStage rejectStage o fuel (retries + 1) c1
      else finalExceptionReject rejectStage o e c1

/-- `_process_with_retry` after a successful claim: run the retry loop with
`retries = 0` and fresh counters. -/
def processWithRetry (maxRetries : Nat) (outputStage rejectStage : String)
    (o : LoopOracles) : Outcome × LoopCounters :=
  runRetryLoop maxRetries outputStage rejectStage o (maxRetries + 1) 0 ⟨0, 0, 0, 0, 0⟩

theorem runRetryLoop_step_done (maxRetries : Nat) (os rs : String) (o : LoopOracles)
    (fuel retries : Nat) (c c1 : LoopCounters) (out : Outcome)
    (hstep : attemptOnce (decide (maxRetries ≤ retries)) os rs o c = .done out c1) :
    runRetryLoop maxRetries os rs o (fuel + 1) retries c = (out, c1) := by
  simp only [runRetryLoop, hstep]

theorem runRetryLoop_step_retryBiz (maxRetries : Nat) (os rs : String) (o : LoopOracles)
    (fuel retries : Nat) (c c1 : LoopCounters)
    (hstep : attemptOnce (decide (maxRetries ≤ retries)) os rs o c = .retryBiz c1) :
    runRetryLoop maxRetries os rs o (fuel + 1) retries c =
      runRetryLoop maxRetries os rs o fuel (retries + 1) c1 := by
  simp only [runRetryLoop, hstep]

theorem runRetryLoop_step_exn_retry (maxRetries : Nat) (os rs : String) (o : LoopOracles)
    (fuel retries : Nat) (c c1 : LoopCounters) (e : String)
    (hlt : retries < maxRetries)
    (hstep : attemptOnce (decide (maxRetries ≤ retries)) os rs o c = .exn e c1) :
    runRetryLoop maxRetries os rs o (fuel + 1) retries c =
      runRetryLoop maxRetries os rs o fuel (retries + 1) c1 := by
  simp only [runRetryLoop, hstep, if_pos hlt]

theorem runRetryLoop_step_exn_final (maxRetries : Nat) (os rs : String) (o : LoopOracles)
    (fuel retries : Nat) (c c1 : LoopCounters) (e : String)
    (hge : ¬ retries < maxRetries)
    (hstep : attemptOnce (decide (maxRetries ≤ retries)) os rs o c = .exn e c1) :
    runRetryLoop maxRetries os rs o (fuel + 1) retries c =
      finalExceptionReject rs o e c1 := by
  simp only [runRetryLoop, hstep, if_neg hge]

theorem attemptOnce_biz_fail (os rs : String) (o : LoopOracles) (c : LoopCounters)
    (h : Headers) (body : String) (chh : Headers) (ccc rr : String)
    (hp : o.parse c.parseCalls = .ok (h, body))
    (hc : o.callback c.invocations = .ok ⟨false, chh, ccc, rr⟩) :
    attemptOnce false os rs o c =
      .retryBiz ⟨c.attempts + 1, c.parseCalls + 1, c.invocations + 1,
        c.moveOutCalls, c.moveRejCalls⟩ := by
  simp [attemptOnce, hp, hc]

theorem attemptOnce_biz_fail_last (os rs : String) (o : LoopOracles) (c : LoopCounters)
    (h : Headers) (body : String) (chh : Headers) (ccc rr : String)
    (hp : o.parse c.parseCalls = .ok (h, body))
    (hc : o.callback c.invocations = .ok ⟨false, chh, ccc, rr⟩)
    (hr : o.moveRej c.moveRejCalls = none) :
    attemptOnce true os rs o c =
      .done (.relocatedReject (rejectHeaders rs h rr) body rr
          (auditLine (rejectHeaders rs h rr) rr))
        ⟨c.attempts + 1, c.parseCalls + 1, c.invocations + 1,
          c.moveOutCalls, c.moveRejCalls + 1⟩ := by
  simp [attemptOnce, hp, hc, hr]

theorem runRetryLoop_always_fail (maxRetries : Nat) (os rs : String) (o : LoopOracles)
    (h : Headers) (body : String) (ch : Nat → Headers) (cc r : Nat → String)
    (hparse : ∀ i, o.parse i = .ok (h, body))
    (hcb : ∀ i, o.callback i = .ok ⟨false, ch i, cc i, r i⟩)
    (hrej : ∀ i, o.moveRej i = none) :
    ∀ k retries c, retries + k = maxRetries →
      runRetryLoop maxRetries os rs o (k + 1) retries c =
        (.relocatedReject (rejectHeaders rs h (r (c.invocations + k))) body
            (r (c.invocations + k))
            (auditLine (rejectHeaders rs h (r (c.invocations + k))) (r (c.invocations + k))),
          ⟨c.attempts + k + 1, c.parseCalls + k + 1, c.invocations + k + 1,
            c.moveOutCalls, c.moveRejCalls + 1⟩) := by
  intro k
  induction k with
  | zero =>
    intro retries c hk
    have hlast : (decide (maxRetries ≤ retries)) = true := by
      simp only [decide_eq_true_eq]
      omega
    rw [runRetryLoop_step_done maxRetries os rs o 0 retries c _ _
      (by
        rw [hlast]
        exact attemptOnce_biz_fail_last os rs o c h body (ch c.invocations) (cc c.invocations)
          (r c.invocations) (hparse c.parseCalls) (hcb c.invocations) (hrej c.moveRejCalls))]
    simp
  | succ k ih =>
    intro retries c hk
    have hnotlast : (decide (maxRetries ≤ retries)) = false := by
      simp only [decide_eq_false_iff_not]
      omega
    rw [show k + 1 + 1 = (k + 1) + 1 from rfl]
    rw [runRetryLoop_step_retryBiz maxRetries os rs o (k + 1) retries c _
      (by
        rw [hnotlast]
        exact attemptOnce_biz_fail os rs o c h body (ch c.invocations) (cc c.invocations)
          (r c.invocations) (hparse c.parseCalls) (hcb c.invocations))]
    rw [ih (retries + 1)
      ⟨c.attempts + 1, c.parseCalls + 1, c.invocations + 1, c.moveOutCalls, c.moveRejCalls⟩
      (by omega)]
    have e1 : c.invocations + 1 + k = c.invocations + (k + 1) := by omega
    have e2 : c.attempts + 1 + k + 1 = c.attempts + (k + 1) + 1 := by omega
    have e3 : c.parseCalls + 1 + k + 1 = c.parseCalls + (k + 1) + 1 := by omega
    have e4 : c.invocations + 1 + k + 1 = c.invocations + (k + 1) + 1 := by omega
    simp only [e1, e2, e3, e4]

/-- C4: when the claim succeeded and every relocation succeeds, a stage
callback that returns failure on every invocation is invoked exactly
`maxRetries + 1` times, after which the item is relocated to the reject
directory: its headers carry `Rejection-Reason` equal to the reason
returned by the last invocation, and exactly one audit-log line recording
that reason is appended. -/
theorem C4_retry_then_reject (maxRetries : Nat) (os rs : String) (o : LoopOracles)
    (h : Headers) (body : String) (ch : Nat → Headers) (cc r : Nat → String)
    (hparse : ∀ i, o.parse i = .ok (h, body))
    (hcb : ∀ i, o.callback i = .ok ⟨false, ch i, cc i, r i⟩)
    (hrej : ∀ i, o.moveRej i = none) :
    (processWithRetry maxRetries os rs o).2.invocations = maxRetries + 1 ∧
    (processWithRetry maxRetries os rs o).1 =
      .relocatedReject (rejectHeaders rs h (r maxRetries)) body (r maxRetries)
        (auditLine (rejectHeaders rs h (r maxRetries)) (r maxRetries)) ∧
    dictGetD (rejectHeaders rs h (r maxRetries)) "Rejection-Reason" "" = r maxRetries := by
  have hrun := runRetryLoop_always_fail maxRetries os rs o h body ch cc r hparse hcb hrej
    maxRetries 0 ⟨0, 0, 0, 0, 0⟩ (by omega)
  unfold processWithRetry
  rw [hrun]
  refine ⟨by simp, by simp, ?_⟩
  exact dictGetD_dictSet (dictSet h "Pipeline-Stage" rs) "Rejection-Reason" (r maxRetries) ""

/-- C4 witness: `maxRetries = 2`, a callback failing with reason `bad i` on
invocation `i`: three invocations and a rejection recording reason
`bad 2`. -/
theorem C4_retry_then_reject_witness :
    (processWithRetry 2 "out" "rej"
      ⟨fun _ => .ok ([("Joke-ID", "j1")], "b"),
       fun i => .ok ⟨false, [], "", "bad " ++ toString i⟩,
       fun _ => none, fun _ => none⟩).2.invocations = 2 + 1 ∧
    (processWithRetry 2 "out" "rej"
      ⟨fun _ => .ok ([("Joke-ID", "j1")], "b"),
       fun i => .ok ⟨false, [], "", "bad " ++ toString i⟩,
       fun _ => none, fun _ => none⟩).1 =
      .relocatedReject (rejectHeaders "rej" [("Joke-ID", "j1")] "bad 2") "b" "bad 2"
        (auditLine (rejectHeaders "rej" [("Joke-ID", "j1")] "bad 2") "bad 2") ∧
    dictGetD (rejectHeaders "rej" [("Joke-ID", "j1")] "bad 2") "Rejection-Reason" "" = "bad 2" := by
  have hw := C4_retry_then_reject 2 "out" "rej"
    ⟨fun _ => .ok ([("Joke-ID", "j1")], "b"),
     fun i => .ok ⟨false, [], "", "bad " ++ toString i⟩,
     fun _ => none, fun _ => none⟩
    [("Joke-ID", "j1")] "b" (fun _ => []) (fun _ => "") (fun i => "bad " ++ toString i)
    (fun _ => rfl) (fun _ => rfl) (fun _ => rfl)
  exact hw

theorem attemptOnce_parse_err (isLast : Bool) (os rs : String) (o : LoopOracles)
    (c : LoopCounters) (m : String)
    (hp : o.parse c.parseCalls = .error m) :
    attemptOnce isLast os rs o c =
      .exn m ⟨c.attempts + 1, c.parseCalls + 1, c.invocations,
        c.moveOutCalls, c.moveRejCalls⟩ := by
  simp [attemptOnce, hp]

theorem finalExceptionReject_parse_err (rs : String) (o : LoopOracles)
    (e : String) (c : LoopCounters) (m : String)
    (hp : o.parse c.parseCalls = .error m)
    (hr : o.moveRej c.moveRejCalls = none) :
    finalExceptionReject rs o e c =
      (.relocatedReject (rejectHeaders rs [] ("Exception occurred: " ++ e)) ""
          ("Exception occurred: " ++ e)
          (auditLine (rejectHeaders rs [] ("Exception occurred: " ++ e))
            ("Exception occurred: " ++ e)),
        ⟨c.attempts, c.parseCalls + 1, c.invocations, c.moveOutCalls,
          c.moveRejCalls + 1⟩) := by
  simp [finalExceptionReject, hp, hr]

theorem runRetryLoop_parse_always_fails (maxRetries : Nat) (os rs : String)
    (o : LoopOracles) (m : String)
    (hparse : ∀ i, o.parse i = .error m)
    (hrej : ∀ i, o.moveRej i = none) :
    ∀ k retries c, retries + k = maxRetries →
      runRetryLoop maxRetries os rs o (k + 1) retries c =
        (.relocatedReject (rejectHeaders rs [] ("Exception occurred: " ++ m)) ""
            ("Exception occurred: " ++ m)
            (auditLine (rejectHeaders rs [] ("Exception occurred: " ++ m))
              ("Exception occurred: " ++ m)),
          ⟨c.attempts + k + 1, c.parseCalls + k + 2, c.invocations,
            c.moveOutCalls, c.moveRejCalls + 1⟩) := by
  intro k
  induction k with
  | zero =>
    intro retries c hk
    rw [runRetryLoop_step_exn_final maxRetries os rs o 0 retries c _ m (by omega)
      (attemptOnce_parse_err _ os rs o c m (hparse c.parseCalls))]
    rw [finalExceptionReject_parse_err rs o m _ m (hparse _) (hrej _)]
  | succ k ih =>
    intro retries c hk
    rw [show k + 1 + 1 = (k + 1) + 1 from rfl]
    rw [runRetryLoop_step_exn_retry maxRetries os rs o (k + 1) retries c _ m (by omega)
      (attemptOnce_parse_err _ os rs o c m (hparse c.parseCalls))]
    rw [ih (retries + 1)
      ⟨c.attempts + 1, c.parseCalls + 1, c.invocations, c.moveOutCalls, c.moveRejCalls⟩
      (by omega)]
    have e1 : c.attempts + 1 + k + 1 = c.attempts + (k + 1) + 1 := by omega
    have e2 : c.parseCalls + 1 + k + 2 = c.parseCalls + (k + 1) + 2 := by omega
    simp only [e1, e2]

/-- C10: when `parse_joke_file` raises on the initial attempt and on every
retry, each parse exception consumes one retry-loop attempt; after
`maxRetries + 1` failed attempts (the callback never invoked) the item is
relocated to the reject directory with empty body and headers consisting
exactly of `Pipeline-Stage` and `Rejection-Reason`, the reason being the
exception text prefixed with `Exception occurred: `. -/
theorem C10_parse_exceptions_reject (maxRetries : Nat) (os rs : String)
    (o : LoopOracles) (m : String)
    (hparse : ∀ i, o.parse i = .error m)
    (hrej : ∀ i, o.moveRej i = none) :
    (processWithRetry maxRetries os rs o).2.attempts = maxRetries + 1 ∧
    (processWithRetry maxRetries os rs o).2.invocations = 0 ∧
    (processWithRetry maxRetries os rs o).1 =
      .relocatedReject [("Pipeline-Stage", rs), ("Rejection-Reason", "Exception occurred: " ++ m)]
        "" ("Exception occurred: " ++ m)
        (auditLine (rejectHeaders rs [] ("Exception occurred: " ++ m))
          ("Exception occurred: " ++ m)) := by
  have hrun := runRetryLoop_parse_always_fails maxRetries os rs o m hparse hrej
    maxRetries 0 ⟨0, 0, 0, 0, 0⟩ (by omega)
  unfold processWithRetry
  rw [hrun]
  refine ⟨by simp, rfl, ?_⟩
  have hh : rejectHeaders rs [] ("Exception occurred: " ++ m) =
      [("Pipeline-Stage", rs), ("Rejection-Reason", "Exception occurred: " ++ m)] := by
    simp [rejectHeaders, dictSet]
  rw [hh]

/-- C10 witness: `maxRetries = 1` and a parse that always raises `boom`:
two loop attempts, zero callback invocations, and a rejection with only the
two pipeline headers and reason `Exception occurred: boom`. -/
theorem C10_parse_exceptions_reject_witness :
    (processWithRetry 1 "out" "rej"
      ⟨fun _ => .error "boom", fun _ => .ok ⟨true, [], "", ""⟩,
       fun _ => none, fun _ => none⟩).2.attempts = 1 + 1 ∧
    (processWithRetry 1 "out" "rej"
      ⟨fun _ => .error "boom", fun _ => .ok ⟨true, [], "", ""⟩,
       fun _ => none, fun _ => none⟩).2.invocations = 0 ∧
    (processWithRetry 1 "out" "rej"
      ⟨fun _ => .error "boom", fun _ => .ok ⟨true, [], "", ""⟩,
       fun _ => none, fun _ => none⟩).1 =
      .relocatedReject [("Pipeline-Stage", "rej"), ("Rejection-Reason", "Exception occurred: boom")]
        "" ("Exception occurred: boom")
        (auditLine (rejectHeaders "rej" [] ("Exception occurred: boom"))
          ("Exception occurred: boom")) :=
  C10_parse_exceptions_reject 1 "out" "rej"
    ⟨fun _ => .error "boom", fun _ => .ok ⟨true, [], "", ""⟩,
     fun _ => none, fun _ => none⟩ "boom" (fun _ => rfl) (fun _ => rfl)

theorem attemptOnce_success_moveOut_fail (isLast : Bool) (os rs : String)
    (o : LoopOracles) (c : LoopCounters) (h : Headers) (body : String)
    (chh : Headers) (ccc rr e : String)
    (hp : o.parse c.parseCalls = .ok (h, body))
    (hc : o.callback c.invocations = .ok ⟨true, chh, ccc, rr⟩)
    (hm : o.moveOut c.moveOutCalls = some e) :
    attemptOnce isLast os rs o c =
      .exn e ⟨c.attempts + 1, c.parseCalls + 1, c.invocations + 1,
        c.moveOutCalls + 1, c.moveRejCalls⟩ := by
  simp [attemptOnce, hp, hc, hm]

theorem runRetryLoop_moveOut_always_fails (maxRetries : Nat) (os rs : String)
    (o : LoopOracles) (h : Headers) (body : String)
    (ch : Nat → Headers) (cc rr e : Nat → String)
    (hparse : ∀ i, o.parse i = .ok (h, body))
    (hcb : ∀ i, o.callback i = .ok ⟨true, ch i, cc i, rr i⟩)
    (hmo : ∀ i, o.moveOut i = some (e i)) :
    ∀ k retries c, retries + k = maxRetries →
      runRetryLoop maxRetries os rs o (k + 1) retries c =
        finalExceptionReject rs o (e (c.moveOutCalls + k))
          ⟨c.attempts + k + 1, c.parseCalls + k + 1, c.invocations + k + 1,
            c.moveOutCalls + k + 1, c.moveRejCalls⟩ := by
  intro k
  induction k with
  | zero =>
    intro retries c hk
    rw [runRetryLoop_step_exn_final maxRetries os rs o 0 retries c _ _ (by omega)
      (attemptOnce_success_moveOut_fail _ os rs o c h body (ch c.invocations)
        (cc c.invocations) (rr c.invocations) (e c.moveOutCalls)
        (hparse c.parseCalls) (hcb c.invocations) (hmo c.moveOutCalls))]
    simp
  | succ k ih =>
    intro retries c hk
    rw [show k + 1 + 1 = (k + 1) + 1 from rfl]
    rw [runRetryLoop_step_exn_retry maxRetries os rs o (k + 1) retries c _ _ (by omega)
      (attemptOnce_success_moveOut_fail _ os rs o c h body (ch c.invocations)
        (cc c.invocations) (rr c.invocations) (e c.moveOutCalls)
        (hparse c.parseCalls) (hcb c.invocations) (hmo c.moveOutCalls))]
    rw [ih (retries + 1)
      ⟨c.attempts + 1, c.parseCalls + 1, c.invocations + 1, c.moveOutCalls + 1, c.moveRejCalls⟩
      (by omega)]
    have e1 : c.moveOutCalls + 1 + k = c.moveOutCalls + (k + 1) := by omega
    have e2 : c.attempts + 1 + k + 1 = c.attempts + (k + 1) + 1 := by omega
    have e3 : c.parseCalls + 1 + k + 1 = c.parseCalls + (k + 1) + 1 := by omega
    have e4 : c.invocations + 1 + k + 1 = c.invocations + (k + 1) + 1 := by omega
    have e5 : c.moveOutCalls + 1 + k + 1 = c.moveOutCalls + (k + 1) + 1 := by omega
    simp only [e1, e2, e3, e4, e5]

/-- C2 (counterexample): with `maxRetries = 1`, a callback that always
succeeds, and `_move_to_output` raising on its first call only, the
relocation failure after the terminal success decision is NOT fatal: the
cycle re-invokes the callback (two invocations) and ends by declaring the
item a success, contradicting the claim that the item would have been left
claimed without a further callback invocation. -/
theorem C2_counterexample :
    (processWithRetry 1 "out" "rej"
      ⟨fun _ => .ok ([("Joke-ID", "j1")], "b"),
       fun _ => .ok ⟨true, [("Joke-ID", "j1")], "b2", ""⟩,
       fun i => if i = 0 then some "disk full" else none,
       fun _ => none⟩).2.invocations = 2 ∧
    (processWithRetry 1 "out" "rej"
      ⟨fun _ => .ok ([("Joke-ID", "j1")], "b"),
       fun _ => .ok ⟨true, [("Joke-ID", "j1")], "b2", ""⟩,
       fun i => if i = 0 then some "disk full" else none,
       fun _ => none⟩).1 =
      .relocatedSuccess [("Joke-ID", "j1"), ("Pipeline-Stage", "out")] "b2" := by
  exact ⟨rfl, rfl⟩

/-- C2 (amended): an atomic write/move failure after a terminal success
decision is caught by the retry loop like any other exception and consumes
a retry attempt, re-invoking the callback.  Only when attempts are
exhausted is it terminal: with every output relocation failing, after
`maxRetries + 1` invocations the item is relocated to the reject directory
with reason `Exception occurred: <relocation error>` when that final
relocation succeeds, and when it also fails the cycle aborts with the item
left in the claimed `tmp` location (never declared a success, never in two
places). -/
theorem C2_relocation_failure_behaviour (maxRetries : Nat) (os rs : String)
    (o : LoopOracles) (h : Headers) (body : String)
    (ch : Nat → Headers) (cc rr e : Nat → String)
    (hparse : ∀ i, o.parse i = .ok (h, body))
    (hcb : ∀ i, o.callback i = .ok ⟨true, ch i, cc i, rr i⟩)
    (hmo : ∀ i, o.moveOut i = some (e i)) :
    (processWithRetry maxRetries os rs o).2.invocations = maxRetries + 1 ∧
    (o.moveRej 0 = none →
      (processWithRetry maxRetries os rs o).1 =
        .relocatedReject (rejectHeaders rs h ("Exception occurred: " ++ e maxRetries)) body
          ("Exception occurred: " ++ e maxRetries)
          (auditLine (rejectHeaders rs h ("Exception occurred: " ++ e maxRetries))
            ("Exception occurred: " ++ e maxRetries))) ∧
    (∀ err, o.moveRej 0 = some err →
      (processWithRetry maxRetries os rs o).1 = .crashed err) := by
  have hrun := runRetryLoop_moveOut_always_fails maxRetries os rs o h body ch cc rr e
    hparse hcb hmo maxRetries 0 ⟨0, 0, 0, 0, 0⟩ (by omega)
  unfold processWithRetry
  rw [hrun]
  refine ⟨?_, ?_, ?_⟩
  · simp [finalExceptionReject, hparse]
    cases hr : o.moveRej 0 <;> simp [hr]
  · intro hr0
    simp [finalExceptionReject, hparse, hr0]
  · intro err hrerr
    simp [finalExceptionReject, hparse, hrerr]

/-- C2 witness for the amended claim: `maxRetries = 1`, relocation to output
failing both times with `full0` / `full1`, final reject relocation
succeeding: two invocations and a rejection with reason
`Exception occurred: full1`. -/
theorem C2_relocation_failure_behaviour_witness :
    (processWithRetry 1 "out" "rej"
      ⟨fun _ => .ok ([("Joke-ID", "j1")], "b"),
       fun _ => .ok ⟨true, [], "b2", ""⟩,
       fun i => some ("full" ++ toString i), fun _ => none⟩).2.invocations = 1 + 1 ∧
    (processWithRetry 1 "out" "rej"
      ⟨fun _ => .ok ([("Joke-ID", "j1")], "b"),
       fun _ => .ok ⟨true, [], "b2", ""⟩,
       fun i => some ("full" ++ toString i), fun _ => none⟩).1 =
      .relocatedReject (rejectHeaders "rej" [("Joke-ID", "j1")] ("Exception occurred: " ++ "full1"))
        "b" ("Exception occurred: " ++ "full1")
        (auditLine (rejectHeaders "rej" [("Joke-ID", "j1")] ("Exception occurred: " ++ "full1"))
          ("Exception occurred: " ++ "full1")) := by
  have hw := C2_relocation_failure_behaviour 1 "out" "rej"
    ⟨fun _ => .ok ([("Joke-ID", "j1")], "b"),
     fun _ => .ok ⟨true, [], "b2", ""⟩,
     fun i => some ("full" ++ toString i), fun _ => none⟩
    [("Joke-ID", "j1")] "b" (fun _ => []) (fun _ => "b2") (fun _ => "")
    (fun i => "full" ++ toString i)
    (fun _ => rfl) (fun _ => rfl) (fun _ => rfl)
  exact ⟨hw.1, hw.2.1 rfl⟩

/-! ## Item store model (`file_utils.py`, `parse_joke_file` lines 12-76,
`write_joke_file` lines 79-102)

Text is modelled as `List Char`.  Reading with `readlines()` followed by
`line.rstrip('\r\n')` is modelled by splitting at `'\n'` (which drops the
terminators) and then stripping trailing `'\r'` characters from each line.
The model covers carriage-return-free text: Python opens these files in
text mode, whose universal-newline translation turns stray `'\r'`
characters into `'\n'` on read, and that translation is outside the model
(the round-trip hypotheses exclude `'\r'`). -/

namespace FileUtils

abbrev Chars := List Char

/-- Header map with `List Char` keys and values, insertion-ordered. -/
abbrev CHeaders := List (Chars × Chars)

/-- The characters Python's default `str.strip()` removes: every code point
whose `str.isspace()` is true, i.e. U+0009 to U+000D, U+001C to U+001F,
space, U+0085, U+00A0, U+1680, U+2000 to U+200A, U+2028, U+2029, U+202F,
U+205F and U+3000. -/
def isPyWS (c : Char) : Bool :=
  let n := c.toNat
  (decide (0x09 ≤ n) && decide (n ≤ 0x0D)) ||
  (decide (0x1C ≤ n) && decide (n ≤ 0x1F)) ||
  n == 0x20 || n == 0x85 || n == 0xA0 || n == 0x1680 ||
  (decide (0x2000 ≤ n) && decide (n ≤ 0x200A)) ||
  n == 0x2028 || n == 0x2029 || n == 0x202F || n == 0x205F || n == 0x3000

/-- Leading-whitespace half of `str.strip()`. -/
def lstrip : Chars → Chars
  | [] => []
  | c :: cs => if isPyWS c then lstrip cs else c :: cs

/-- Trailing-whitespace half of `str.strip()`. -/
def rstrip : Chars → Chars
  | [] => []
  | c :: cs =>
    match rstrip cs with
    | [] => if isPyWS c then [] else [c]
    | r => c :: r

/-- Python `str.strip()`. -/
def pyStrip (s : Chars) : Chars := lstrip (rstrip s)

/-- Logical lines of a file as `readlines()` + `rstrip` of the `'\n'`
terminator produce them: `splitNL "a\nb\n" = ["a", "b"]`,
`splitNL "a\nb" = ["a", "b"]`, `splitNL "" = []`. -/
def splitNL : Chars → List Chars
  | [] => []
  | c :: cs =>
    if c = '\n' then [] :: splitNL cs
    else
      match splitNL cs with
      | [] => [[c]]
      | l :: ls => (c :: l) :: ls

/-- Trailing-`'\r'` stripping, the residue of `line.rstrip('\r\n')` after
the `'\n'` terminators are gone. -/
def rstripCR : Chars → Chars
  | [] => []
  | c :: cs =>
    match rstripCR cs with
    | [] => if c = '\r' then [] else [c]
    | r => c :: r

/-- Python `content.rstrip('\n')` (line 74). -/
def rstripLF : Chars → Chars
  | [] => []
  | c :: cs =>
    match rstripLF cs with
    | [] => if c = '\n' then [] else [c]
    | r => c :: r

/-- Python `'\n'.join(content_lines)` (line 71). -/
def joinNL : List Chars → Chars
  | [] => []
  | [l] => l
  | l :: ls => l ++ '\n' :: joinNL ls

/-- Python dict assignment `headers[k] = v` on an insertion-ordered map. -/
def dictSetC (d : CHeaders) (k v : Chars) : CHeaders :=
  if d.any (fun p => p.1 == k) then
    d.map (fun p => if p.1 == k then (k, v) else p)
  else d ++ [(k, v)]

/-- Loop state of the `for line in lines` loop of `parse_joke_file`
(lines 37-68). -/
structure ParseState where
  headers : CHeaders
  content_lines : List Chars
  header_done : Bool
deriving Repr, DecidableEq

/-- One iteration of the parse loop (lines 41-68): a blank line ends the
header section (skipped while no content has accumulated, preserved
otherwise); in the header section a line containing `':'` is split at the
first colon into a stripped key/value pair, and any other line starts the
content; after the header section every line is content. -/
def parseLine (st : ParseState) (line : Chars) : ParseState :=
  if line = [] then
    if st.content_lines = [] then { st with header_done := true }
    else { st with header_done := true, content_lines := st.content_lines ++ [[]] }
  else if !st.header_done then
    if line.contains ':' then
      let key := line.takeWhile (fun c => c != ':')
      let val := line.drop (key.length + 1)
      { st with headers := dictSetC st.headers (pyStrip key) (pyStrip val) }
    else { st with header_done := true, content_lines := st.content_lines ++ [line] }
  else { st with content_lines := st.content_lines ++ [line] }

/-- Model of `parse_joke_file`: split into logical lines, run the header /
content loop, join the content lines and strip trailing newlines. -/
def parse_joke_file (file : Chars) : CHeaders × Chars :=
  let lines := (splitNL file).map rstripCR
  let st := lines.foldl parseLine ⟨[], [], false⟩
  (st.headers, rstripLF (joinNL st.content_lines))

/-- One header line `f"KEY: VALUE"` as written by line 96 (without the
terminator). -/
def headerLine (p : Chars × Chars) : Chars := p.1 ++ ':' :: ' ' :: p.2

/-- Model of `write_joke_file`: one `key: value` line per header in
insertion order, a blank separator line, then the content with exactly one
trailing newline appended when the content is nonempty and lacks one. -/
def write_joke_file (headers : CHeaders) (content : Chars) : Chars :=
  let content2 :=
    if content ≠ [] ∧ content.getLast? ≠ some '\n' then content ++ ['\n'] else content
  (headers.map (fun p => headerLine p ++ ['\n'])).flatten ++ '\n' :: content2

/-- Equality of two bodies up to one normalized trailing newline, the
comparison the round-trip claim asks for. -/
def eqModSingleNewline (a b : Chars) : Prop :=
  a = b ∨ a = b ++ ['\n'] ∨ a ++ ['\n'] = b

instance (a b : Chars) : Decidable (eqModSingleNewline a b) := by
  unfold eqModSingleNewline
  infer_instance

/-- Key shape under which the colon-split and strip of the parser restore
the written key: no colon, no line break, no carriage return, and already
whitespace-trimmed on both sides. -/
structure GoodKey (k : Chars) : Prop where
  noColon : ':' ∉ k
  noNL : '\n' ∉ k
  noCR : '\r' ∉ k
  lfix : lstrip k = k
  rfix : rstrip k = k

/-- Value shape under which the strip of the parser restores the written
value: no line break, no carriage return, whitespace-trimmed. -/
structure GoodVal (v : Chars) : Prop where
  noNL : '\n' ∉ v
  noCR : '\r' ∉ v
  lfix : lstrip v = v
  rfix : rstrip v = v

theorem rstripCR_id (l : Chars) (h : '\r' ∉ l) : rstripCR l = l := by
  induction l with
  | nil => rfl
  | cons c cs ih =>
    simp only [List.mem_cons, not_or] at h
    have ih2 := ih h.2
    simp only [rstripCR]
    rw [ih2]
    cases cs with
    | nil => simp [Ne.symm h.1]
    | cons d ds => rfl

theorem splitNL_newline_cons (s : Chars) : splitNL ('\n' :: s) = [] :: splitNL s := by
  simp [splitNL]

theorem splitNL_append_line (l rest : Chars) (h : '\n' ∉ l) :
    splitNL (l ++ '\n' :: rest) = l :: splitNL rest := by
  induction l with
  | nil => simp [splitNL]
  | cons c cs ih =>
    simp only [List.mem_cons, not_or] at h
    have ih2 := ih h.2
    simp only [List.cons_append, splitNL, if_neg (Ne.symm h.1), List.append_eq]
    rw [ih2]

theorem splitNL_eq_nil_iff (s : Chars) : splitNL s = [] ↔ s = [] := by
  cases s with
  | nil => simp [splitNL]
  | cons c cs =>
    simp only [List.cons_ne_nil, iff_false]
    by_cases hc : c = '\n'
    · simp [splitNL, hc]
    · simp only [splitNL, if_neg hc]
      cases hs : splitNL cs with
      | nil => simp
      | cons l ls => simp

theorem splitNL_cons_of_ne (c : Char) (cs : Chars) (h : ¬ c = '\n') :
    ∃ l ls, splitNL (c :: cs) = (c :: l) :: ls := by
  cases hs : splitNL cs with
  | nil =>
    refine ⟨[], [], ?_⟩
    simp only [splitNL, if_neg h]
    rw [hs]
  | cons l ls =>
    refine ⟨l, ls, ?_⟩
    simp only [splitNL, if_neg h]
    rw [hs]

theorem joinNL_splitNL_cons (c : Char) (cs : Chars) (h : ¬ c = '\n') :
    joinNL (splitNL (c :: cs)) = c :: joinNL (splitNL cs) := by
  cases hs : splitNL cs with
  | nil =>
    have h1 : splitNL (c :: cs) = [[c]] := by
      simp only [splitNL, if_neg h]
      rw [hs]
    rw [h1]
    rfl
  | cons l ls =>
    have h1 : splitNL (c :: cs) = (c :: l) :: ls := by
      simp only [splitNL, if_neg h]
      rw [hs]
    rw [h1]
    cases ls with
    | nil => rfl
    | cons m ms => rfl

theorem rstripLF_join_splitNL (s : Chars) : rstripLF (joinNL (splitNL s)) = rstripLF s := by
  induction s with
  | nil => rfl
  | cons c cs ih =>
    by_cases hc : c = '\n'
    · subst hc
      rw [splitNL_newline_cons]
      cases hs : splitNL cs with
      | nil =>
        have hcs : cs = [] := (splitNL_eq_nil_iff cs).mp hs
        subst hcs
        rfl
      | cons l ls =>
        have hj : joinNL ([] :: l :: ls) = '\n' :: joinNL (l :: ls) := rfl
        rw [hj]
        have ihx : rstripLF (joinNL (l :: ls)) = rstripLF cs := by
          rw [← hs]
          exact ih
        simp only [rstripLF]
        rw [ihx]
    · rw [joinNL_splitNL_cons c cs hc]
      simp only [rstripLF]
      rw [ih]

theorem rstripLF_append_nl (s : Chars) : rstripLF (s ++ ['\n']) = rstripLF s := by
  induction s with
  | nil => rfl
  | cons c cs ih =>
    simp only [List.cons_append, rstripLF, List.append_eq]
    rw [ih]

theorem mem_splitNL_subset (s : Chars) :
    ∀ l ∈ splitNL s, ∀ c ∈ l, c ∈ s := by
  induction s with
  | nil => simp [splitNL]
  | cons d ds ih =>
    intro l hl c hc
    by_cases hd : d = '\n'
    · subst hd
      rw [splitNL_newline_cons] at hl
      rcases List.mem_cons.mp hl with h1 | h1
      · subst h1
        simp at hc
      · exact List.mem_cons_of_mem _ (ih l h1 c hc)
    · cases hs : splitNL ds with
      | nil =>
        have h1 : splitNL (d :: ds) = [[d]] := by
          simp only [splitNL, if_neg hd]
          rw [hs]
        rw [h1] at hl
        simp only [List.mem_singleton] at hl
        subst hl
        simp only [List.mem_singleton] at hc
        subst hc
        simp
      | cons m ms =>
        have h1 : splitNL (d :: ds) = (d :: m) :: ms := by
          simp only [splitNL, if_neg hd]
          rw [hs]
        rw [h1] at hl
        rcases List.mem_cons.mp hl with h2 | h2
        · subst h2
          rcases List.mem_cons.mp hc with h3 | h3
          · subst h3
            simp
          · have := ih m (by rw [hs]; exact List.mem_cons_self m ms) c h3
            exact List.mem_cons_of_mem _ this
        · have hmem : l ∈ splitNL ds := by
            rw [hs]
            exact List.mem_cons_of_mem _ h2
          exact List.mem_cons_of_mem _ (ih l hmem c hc)

theorem splitNL_flatten_lines (ls : List Chars) (h : ∀ l ∈ ls, '\n' ∉ l) (rest : Chars) :
    splitNL ((ls.map (fun l => l ++ ['\n'])).flatten ++ rest) = ls ++ splitNL rest := by
  induction ls with
  | nil => simp
  | cons l t ih =>
    have hl : '\n' ∉ l := h l (List.mem_cons_self l t)
    have ht : ∀ x ∈ t, '\n' ∉ x := fun x hx => h x (List.mem_cons_of_mem l hx)
    simp only [List.map_cons, List.flatten_cons]
    have hx : ((l ++ ['\n']) ++ (t.map (fun l => l ++ ['\n'])).flatten) ++ rest =
        l ++ '\n' :: ((t.map (fun l => l ++ ['\n'])).flatten ++ rest) := by
      simp [List.append_assoc]
    rw [hx, splitNL_append_line l _ hl, ih ht, List.cons_append]

theorem split_colon_take (k rest : Chars) (h : ':' ∉ k) :
    (k ++ ':' :: rest).takeWhile (fun c => c != ':') = k := by
  induction k with
  | nil => simp
  | cons c cs ih =>
    simp only [List.mem_cons, not_or] at h
    have hc : (c != ':') = true := by
      simp only [bne_iff_ne, ne_eq]
      exact fun he => h.1 he.symm
    simp only [List.cons_append, List.takeWhile_cons, hc, if_true]
    rw [ih h.2]

theorem split_colon_drop (k rest : Chars) :
    (k ++ ':' :: rest).drop (k.length + 1) = rest := by
  have h1 : k ++ ':' :: rest = (k ++ [':']) ++ rest := by simp
  have h2 : k.length + 1 = (k ++ [':']).length := by simp
  rw [h1, h2, List.drop_left]

theorem pyStrip_fixed (s : Chars) (h1 : lstrip s = s) (h2 : rstrip s = s) :
    pyStrip s = s := by
  unfold pyStrip
  rw [h2, h1]

theorem pyStrip_space_cons (v : Chars) (h1 : lstrip v = v) (h2 : rstrip v = v) :
    pyStrip (' ' :: v) = v := by
  unfold pyStrip
  simp only [rstrip]
  rw [h2]
  cases v with
  | nil => rfl
  | cons d ds =>
    simp only [lstrip]
    rw [if_pos (by decide)]
    exact h1

theorem dictSetC_fresh (d : CHeaders) (k v : Chars)
    (h : d.any (fun p => p.1 == k) = false) :
    dictSetC d k v = d ++ [(k, v)] := by
  simp [dictSetC, h]

theorem headerLine_ne_nil (k v : Chars) : headerLine (k, v) ≠ [] := by
  unfold headerLine
  cases k <;> simp

theorem headerLine_no_newline (k v : Chars) (hk : '\n' ∉ k) (hv : '\n' ∉ v) :
    '\n' ∉ headerLine (k, v) := by
  unfold headerLine
  intro hmem
  rcases List.mem_append.mp hmem with h1 | h1
  · exact hk h1
  · rcases List.mem_cons.mp h1 with h2 | h2
    · exact absurd h2 (by decide)
    · rcases List.mem_cons.mp h2 with h3 | h3
      · exact absurd h3 (by decide)
      · exact hv h3

theorem headerLine_no_cr (k v : Chars) (hk : '\r' ∉ k) (hv : '\r' ∉ v) :
    '\r' ∉ headerLine (k, v) := by
  unfold headerLine
  intro hmem
  rcases List.mem_append.mp hmem with h1 | h1
  · exact hk h1
  · rcases List.mem_cons.mp h1 with h2 | h2
    · exact absurd h2 (by decide)
    · rcases List.mem_cons.mp h2 with h3 | h3
      · exact absurd h3 (by decide)
      · exact hv h3

theorem headerLine_contains_colon (k v : Chars) :
    (headerLine (k, v)).contains ':' = true := by
  unfold headerLine
  have : ':' ∈ k ++ ':' :: ' ' :: v := by simp
  exact List.elem_eq_true_of_mem this

theorem parseLine_header (st : ParseState) (k v : Chars)
    (hd : st.header_done = false) (hk : GoodKey k) (hv : GoodVal v) :
    parseLine st (headerLine (k, v)) = { st with headers := dictSetC st.headers k v } := by
  unfold parseLine
  rw [if_neg (headerLine_ne_nil k v), hd]
  simp only [Bool.not_false, if_true]
  rw [headerLine_contains_colon k v]
  simp only [if_true]
  unfold headerLine
  rw [split_colon_take k (' ' :: v) hk.noColon, split_colon_drop k (' ' :: v)]
  rw [pyStrip_fixed k hk.lfix hk.rfix, pyStrip_space_cons v hv.lfix hv.rfix]

theorem foldl_parseLine_headers (hs : CHeaders) :
    ∀ A : CHeaders, (∀ p ∈ hs, GoodKey p.1 ∧ GoodVal p.2) →
      (∀ p ∈ hs, A.any (fun q => q.1 == p.1) = false) →
      hs.Pairwise (fun p q => p.1 ≠ q.1) →
      (hs.map headerLine).foldl parseLine ⟨A, [], false⟩ = ⟨A ++ hs, [], false⟩ := by
  induction hs with
  | nil => simp
  | cons p t ih =>
    obtain ⟨k, v⟩ := p
    intro A hgood hfresh hnd
    have hg := hgood (k, v) (List.mem_cons_self _ t)
    simp only [List.map_cons, List.foldl_cons]
    rw [parseLine_header ⟨A, [], false⟩ k v rfl hg.1 hg.2]
    simp only
    rw [dictSetC_fresh A k v (hfresh (k, v) (List.mem_cons_self _ t))]
    have hnd2 := List.pairwise_cons.mp hnd
    have hfresh2 : ∀ q ∈ t, (A ++ [(k, v)]).any (fun r => r.1 == q.1) = false := by
      intro q hq
      rw [List.any_append]
      have e1 : A.any (fun r => r.1 == q.1) = false :=
        hfresh q (List.mem_cons_of_mem _ hq)
      have e2 : (k == q.1) = false := by
        have := hnd2.1 q hq
        simp only [ne_eq] at this
        exact beq_eq_false_iff_ne.mpr this
      simp [e1, e2]
    rw [ih (A ++ [(k, v)]) (fun q hq => hgood q (List.mem_cons_of_mem _ hq)) hfresh2 hnd2.2]
    simp

theorem map_id_of_forall {α : Type} (l : List α) (f : α → α) (h : ∀ a ∈ l, f a = a) :
    l.map f = l := by
  induction l with
  | nil => rfl
  | cons a t ih =>
    simp only [List.map_cons]
    rw [h a (List.mem_cons_self a t), ih (fun x hx => h x (List.mem_cons_of_mem a hx))]

theorem parseLine_blank_start (A : CHeaders) :
    parseLine ⟨A, [], false⟩ [] = ⟨A, [], true⟩ := rfl

theorem parseLine_first_content (H : CHeaders) (L : Chars) (hL : L ≠ []) :
    parseLine ⟨H, [], true⟩ L = ⟨H, [L], true⟩ := by
  unfold parseLine
  rw [if_neg hL]
  simp

theorem foldl_parseLine_content (lines : List Chars) :
    ∀ st : ParseState, st.header_done = true → st.content_lines ≠ [] →
      lines.foldl parseLine st = { st with content_lines := st.content_lines ++ lines } := by
  induction lines with
  | nil => intro st _ _; simp
  | cons L rest ih =>
    intro st hdone hne
    simp only [List.foldl_cons]
    by_cases hL : L = []
    · subst hL
      have hstep : parseLine st [] =
          { st with header_done := true, content_lines := st.content_lines ++ [[]] } := by
        unfold parseLine
        rw [if_pos rfl, if_neg hne]
      rw [hstep, ih _ rfl (by simp)]
      simp [hdone]
    · have hstep : parseLine st L =
          { st with content_lines := st.content_lines ++ [L] } := by
        unfold parseLine
        rw [if_neg hL, hdone]
        simp
      rw [hstep, ih _ (by simp [hdone]) (by simp)]
      simp

end FileUtils

/-- C3 (counterexample): writing the empty metadata map with the body
`"\nx"` (an embedded leading blank line) and parsing it back yields body
`"x"`: the leading blank line of the body is dropped, so the parsed body
differs from the input by more than a single trailing newline. -/
theorem C3_counterexample :
    FileUtils.parse_joke_file (FileUtils.write_joke_file [] ['\n', 'x']) = ([], ['x']) ∧
    ¬ FileUtils.eqModSingleNewline ['x'] ['\n', 'x'] := by
  decide

open FileUtils in
/-- C3 (amended): `write` of a metadata map and body followed by `parse`
returns metadata equal to the input and body equal to the input with its
trailing newlines stripped, provided the metadata keys contain no colon,
newline or carriage return and are whitespace-trimmed with pairwise
distinct keys, the values contain no newline or carriage return and are
whitespace-trimmed, and the body contains no carriage return and does not
begin with a newline.  (Embedded blank lines elsewhere in the body are
covered.)  Without these provisos the claim fails: leading blank lines of
the body are dropped and keys/values are stripped and colon-split on
read. -/
theorem C3_roundtrip (hs : FileUtils.CHeaders) (body : FileUtils.Chars)
    (hgood : ∀ p ∈ hs, GoodKey p.1 ∧ GoodVal p.2)
    (hnodup : hs.Pairwise (fun p q => p.1 ≠ q.1))
    (hbodyCR : '\r' ∉ body)
    (hbodyNL : body.head? ≠ some '\n') :
    parse_joke_file (write_joke_file hs body) = (hs, rstripLF body) := by
  obtain ⟨c2, hw, hCR2, hr2, hnil2, hcons2⟩ :
      ∃ c2 : Chars,
        write_joke_file hs body =
          (hs.map (fun p => headerLine p ++ ['\n'])).flatten ++ '\n' :: c2 ∧
        '\r' ∉ c2 ∧
        rstripLF c2 = rstripLF body ∧
        (body = [] → c2 = []) ∧
        (∀ c b, body = c :: b → ∃ b2, c2 = c :: b2) := by
    by_cases hif : body ≠ [] ∧ body.getLast? ≠ some '\n'
    · refine ⟨body ++ ['\n'], ?_, ?_, rstripLF_append_nl body, ?_, ?_⟩
      · unfold write_joke_file
        rw [if_pos hif]
      · intro hm
        rcases List.mem_append.mp hm with h1 | h1
        · exact hbodyCR h1
        · rw [List.mem_singleton] at h1
          exact absurd h1 (by decide)
      · intro hb
        exact absurd hb hif.1
      · intro c b hb
        subst hb
        exact ⟨b ++ ['\n'], rfl⟩
    · refine ⟨body, ?_, hbodyCR, rfl, fun hb => hb, fun c b hb => ⟨b, hb⟩⟩
      unfold write_joke_file
      rw [if_neg hif]
  have hlinesNL : ∀ l ∈ hs.map headerLine, '\n' ∉ l := by
    intro l hl
    rcases List.mem_map.mp hl with ⟨p, hp, hpe⟩
    have hg := hgood p hp
    rw [← hpe]
    exact headerLine_no_newline p.1 p.2 hg.1.noNL hg.2.noNL
  have hsplit : splitNL ((hs.map (fun p => headerLine p ++ ['\n'])).flatten ++ '\n' :: c2) =
      hs.map headerLine ++ ([] :: splitNL c2) := by
    have hmm := splitNL_flatten_lines (hs.map headerLine) hlinesNL ('\n' :: c2)
    rw [List.map_map] at hmm
    rw [splitNL_newline_cons] at hmm
    exact hmm
  have hcrid : (hs.map headerLine ++ ([] :: splitNL c2)).map rstripCR =
      hs.map headerLine ++ ([] :: splitNL c2) := by
    apply map_id_of_forall
    intro l hl
    rcases List.mem_append.mp hl with h1 | h1
    · rcases List.mem_map.mp h1 with ⟨p, hp, hpe⟩
      have hg := hgood p hp
      apply rstripCR_id
      rw [← hpe]
      exact headerLine_no_cr p.1 p.2 hg.1.noCR hg.2.noCR
    · rcases List.mem_cons.mp h1 with h2 | h2
      · subst h2
        rfl
      · apply rstripCR_id
        intro hc
        exact hCR2 (mem_splitNL_subset c2 l h2 '\r' hc)
  have hheadfold :
      ((hs.map headerLine ++ ([] :: splitNL c2)).foldl parseLine ⟨[], [], false⟩) =
        (splitNL c2).foldl parseLine ⟨hs, [], true⟩ := by
    rw [List.foldl_append]
    rw [foldl_parseLine_headers hs [] hgood (fun p _ => rfl) hnodup]
    simp only [List.nil_append, List.foldl_cons]
    rw [parseLine_blank_start]
  rw [hw]
  show ((((splitNL ((hs.map (fun p => headerLine p ++ ['\n'])).flatten ++ '\n' :: c2)).map
      rstripCR).foldl parseLine ⟨[], [], false⟩).headers,
    rstripLF (joinNL (((splitNL ((hs.map (fun p => headerLine p ++ ['\n'])).flatten ++
      '\n' :: c2)).map rstripCR).foldl parseLine ⟨[], [], false⟩).content_lines)) =
    (hs, rstripLF body)
  rw [hsplit, hcrid, hheadfold]
  cases hbody : body with
  | nil =>
    have hc2nil : c2 = [] := hnil2 hbody
    subst hc2nil
    rfl
  | cons c b =>
    have hcne : ¬ c = '\n' := by
      rw [hbody] at hbodyNL
      simp only [List.head?_cons, ne_eq, Option.some.injEq] at hbodyNL
      exact hbodyNL
    obtain ⟨b2, hc2⟩ := hcons2 c b hbody
    obtain ⟨l, ls, hsp⟩ := splitNL_cons_of_ne c b2 hcne
    rw [hc2, hsp]
    simp only [List.foldl_cons]
    rw [parseLine_first_content hs (c :: l) (by simp)]
    rw [foldl_parseLine_content ls ⟨hs, [c :: l], true⟩ rfl (by simp)]
    simp only [List.singleton_append]
    have hcontent : rstripLF (joinNL ((c :: l) :: ls)) = rstripLF body := by
      rw [← hsp, ← hc2]
      rw [rstripLF_join_splitNL c2]
      rw [hr2, hbody]
    rw [hcontent, hbody]

/-- C3 witness: a two-header map and a body with an embedded blank line
round-trip exactly (the body already carries no trailing newline). -/
theorem C3_roundtrip_witness :
    FileUtils.parse_joke_file
      (FileUtils.write_joke_file
        [(['J', 'o', 'k', 'e'], ['1']), (['S', 'r', 'c'], ['m'])]
        ['a', '\n', '\n', 'b']) =
      ([(['J', 'o', 'k', 'e'], ['1']), (['S', 'r', 'c'], ['m'])],
        FileUtils.rstripLF ['a', '\n', '\n', 'b']) := by
  have hw := C3_roundtrip
    [(['J', 'o', 'k', 'e'], ['1']), (['S', 'r', 'c'], ['m'])]
    ['a', '\n', '\n', 'b']
    (by
      intro p hp
      rcases List.mem_cons.mp hp with h1 | h1
      · subst h1
        exact ⟨⟨by decide, by decide, by decide, by decide, by decide⟩,
          ⟨by decide, by decide, by decide, by decide⟩⟩
      · rcases List.mem_cons.mp h1 with h2 | h2
        · subst h2
          exact ⟨⟨by decide, by decide, by decide, by decide, by decide⟩,
            ⟨by decide, by decide, by decide, by decide⟩⟩
        · simp at h2)
    (by
      refine List.pairwise_cons.mpr ⟨?_, ?_⟩
      · intro q hq
        rw [List.mem_singleton] at hq
        subst hq
        decide
      · simp)
    (by decide)
    (by decide)
  exact hw

end JokePipeline
